import Mathlib

/-!
Verification of the JAEGIS AI Web OS build pipeline (mcp_server package).

This file gives a shallow embedding of the data model and the operations of
src/mcp_server/asm.py, builder.py, ingestion.py and enhanced_ingestion.py,
and proves or refutes the frozen specification claims about them.

Conventions of the embedding:
  - Python dict/list/str/int/bool/None JSON data is modelled by `JValue`;
    dicts are insertion-ordered association lists, as Python dicts are.
  - Fallible Python code is modelled with `Option`/`Except`; an uncaught
    exception is an `Except.error`.
  - External effects (filesystem, subprocesses) are modelled by an abstract
    system interface `Sys` over an abstract world type, plus an explicit
    trace of performed effects.
  - External library calls (chardet, openai, json.loads on free-form text)
    are abstract function parameters constrained only by their types.
-/

namespace MCP

/-- JSON-like values: the data produced by json.load and written by
json.dump, and equally the Python dict/list values flowing through asm.py.
Objects are ordered association lists, matching Python dict iteration
order. -/
inductive JValue where
  | null : JValue
  | jbool : Bool → JValue
  | jint : Int → JValue
  | jstr : String → JValue
  | jarr : List JValue → JValue
  | jobj : List (String × JValue) → JValue

/-- Embeds the BuildInstruction dataclass of asm.py (fields in source
order; order is a Python int). -/
structure BuildInstruction where
  type : String
  action : String
  target : String
  content : Option String
  dependencies : Option (List String)
  order : Int
deriving DecidableEq

/-- Embeds the UnifiedBuildPlan dataclass of asm.py. The Dict[str, Any]
fields directory_structure and metadata hold arbitrary JSON data. -/
structure UnifiedBuildPlan where
  project_name : String
  description : String
  technology_stack : List String
  directory_structure : JValue
  dependencies : List String
  build_instructions : List BuildInstruction
  environment_variables : List (String × String)
  post_build_commands : List String
  metadata : JValue

/-- The fields of a plan dict that _create_build_instructions reads, each
with the default that plan.get supplies when absent. -/
structure PlanDict where
  directory_structure : List (String × JValue)
  dependencies : List String
  build_sequence : List String

/-- Embeds asm.py _extract_directories: walk the dict entries in order;
an entry whose value is itself a dict is emitted (parent before children,
pre-order) and recursed into; any other value, including the string leaf
markers that _add_to_structure writes, is skipped. -/
def extractDirectories : List (String × JValue) → String → List String
  | [], _ => []
  | (k, JValue.jobj es) :: rest, pfx =>
    let cur := if pfx = "" then k else pfx ++ "/" ++ k
    (cur :: extractDirectories es cur) ++ extractDirectories rest pfx
  | (_, _) :: rest, pfx => extractDirectories rest pfx

/-- Embeds one emission loop of asm.py _create_build_instructions: for each
target append an instruction of the given type and action carrying the
running order counter, and return the advanced counter. -/
def emitInstructions (ty ac : String) : List String → Nat → List BuildInstruction × Nat
  | [], o => ([], o)
  | t :: rest, o =>
    let (l, oEnd) := emitInstructions ty ac rest (o + 1)
    ({ type := ty, action := ac, target := t, content := none,
       dependencies := none, order := (o : Int) } :: l, oEnd)

/-- Embeds asm.py _create_build_instructions: directories, then
dependencies, then the build sequence, with one order counter running
across all three phases. -/
def createBuildInstructions (p : PlanDict) : List BuildInstruction :=
  let dirs := extractDirectories p.directory_structure ""
  let (dirI, o1) := emitInstructions "directory" "create" dirs 0
  let (depI, o2) := emitInstructions "dependency" "install" p.dependencies o1
  let (cmdI, _) := emitInstructions "command" "run" p.build_sequence o2
  dirI ++ depI ++ cmdI

/-- Phase rank of an instruction type: directories before dependencies
before commands. -/
def typeRank (t : String) : Nat :=
  if t = "directory" then 0 else if t = "dependency" then 1 else 2

/-- Embeds the builder.py sort of instructions by order (a stable sort, as
the Python sorted builtin is). -/
def sortInstrs (l : List BuildInstruction) : List BuildInstruction :=
  List.insertionSort (fun a b => a.order ≤ b.order) l

/-! Serialization of build plans (asm.py _save_build_plan writes
asdict(plan) as JSON; builder.py _load_build_plan reads it back and
reconstructs the dataclasses keyword by keyword). The JSON text layer of
the json stdlib is taken as the identity on `JValue` documents. -/

/-- Embeds the asdict conversion of one BuildInstruction followed by
json.dump: every field becomes a JSON object entry; None becomes null. -/
def encodeInstruction (b : BuildInstruction) : JValue :=
  JValue.jobj [
    ("type", JValue.jstr b.type),
    ("action", JValue.jstr b.action),
    ("target", JValue.jstr b.target),
    ("content", match b.content with
      | none => JValue.null
      | some s => JValue.jstr s),
    ("dependencies", match b.dependencies with
      | none => JValue.null
      | some l => JValue.jarr (l.map JValue.jstr)),
    ("order", JValue.jint b.order)]

/-- Embeds asm.py _save_build_plan: asdict of the plan, fields in
dataclass order, nested instructions encoded recursively. -/
def encodePlan (p : UnifiedBuildPlan) : JValue :=
  JValue.jobj [
    ("project_name", JValue.jstr p.project_name),
    ("description", JValue.jstr p.description),
    ("technology_stack", JValue.jarr (p.technology_stack.map JValue.jstr)),
    ("directory_structure", p.directory_structure),
    ("dependencies", JValue.jarr (p.dependencies.map JValue.jstr)),
    ("build_instructions", JValue.jarr (p.build_instructions.map encodeInstruction)),
    ("environment_variables",
      JValue.jobj (p.environment_variables.map (fun kv => (kv.1, JValue.jstr kv.2)))),
    ("post_build_commands", JValue.jarr (p.post_build_commands.map JValue.jstr)),
    ("metadata", p.metadata)]

/-- Option-valued traversal of a list: first failure aborts, successes
are collected in order (the semantics of a Python loop whose body can
raise). -/
def mapMOpt (f : A → Option B) : List A → Option (List B)
  | [] => some []
  | a :: t =>
    match f a with
    | none => none
    | some b =>
      match mapMOpt f t with
      | none => none
      | some bs => some (b :: bs)

/-- Looks a key up in a JSON object entry list (Python dict access on the
loaded data; encoded objects have unique keys). -/
def jGet (kvs : List (String × JValue)) (k : String) : Option JValue :=
  List.lookup k kvs

/-- Reads a JSON string (json.load gives a Python str there). -/
def decodeStr : JValue → Option String
  | JValue.jstr s => some s
  | _ => none

/-- Reads a JSON array of strings. -/
def decodeStrList : JValue → Option (List String)
  | JValue.jarr xs => mapMOpt decodeStr xs
  | _ => none

/-- Reads an optional string (null or string, as the content field). -/
def decodeOptStr : JValue → Option (Option String)
  | JValue.null => some none
  | JValue.jstr s => some (some s)
  | _ => none

/-- Reads the dependencies field: null or an array of strings. -/
def decodeOptStrList : JValue → Option (Option (List String))
  | JValue.null => some none
  | JValue.jarr xs => (mapMOpt decodeStr xs).map some
  | _ => none

/-- Reads a JSON integer (json.load gives a Python int there). -/
def decodeInt : JValue → Option Int
  | JValue.jint n => some n
  | _ => none

/-- Reads a JSON object of string values (environment_variables). -/
def decodeStrPairs : JValue → Option (List (String × String))
  | JValue.jobj kvs => mapMOpt (fun kv => (decodeStr kv.2).map (fun s => (kv.1, s))) kvs
  | _ => none

/-- Embeds the instruction reconstruction of builder.py _load_build_plan:
BuildInstruction applied to the loaded field values of one object. -/
def decodeInstruction (j : JValue) : Option BuildInstruction :=
  match j with
  | JValue.jobj kvs => do
    let ty ← jGet kvs "type" >>= decodeStr
    let ac ← jGet kvs "action" >>= decodeStr
    let tg ← jGet kvs "target" >>= decodeStr
    let ct ← jGet kvs "content" >>= decodeOptStr
    let dp ← jGet kvs "dependencies" >>= decodeOptStrList
    let od ← jGet kvs "order" >>= decodeInt
    pure { type := ty, action := ac, target := tg, content := ct,
           dependencies := dp, order := od }
  | _ => none

/-- Embeds builder.py _load_build_plan: json.load of the saved file, each
build_instructions element rebuilt as a BuildInstruction, every other
field passed to the UnifiedBuildPlan constructor as loaded (the two
Dict[str, Any] fields stay raw JSON data). -/
def decodePlan (j : JValue) : Option UnifiedBuildPlan :=
  match j with
  | JValue.jobj kvs => do
    let pn ← jGet kvs "project_name" >>= decodeStr
    let ds ← jGet kvs "description" >>= decodeStr
    let ts ← jGet kvs "technology_stack" >>= decodeStrList
    let dstruct ← jGet kvs "directory_structure"
    let dep ← jGet kvs "dependencies" >>= decodeStrList
    let bi ← jGet kvs "build_instructions" >>=
      (fun v => match v with
        | JValue.jarr xs => mapMOpt decodeInstruction xs
        | _ => none)
    let ev ← jGet kvs "environment_variables" >>= decodeStrPairs
    let pb ← jGet kvs "post_build_commands" >>= decodeStrList
    let md ← jGet kvs "metadata"
    pure { project_name := pn, description := ds, technology_stack := ts,
           directory_structure := dstruct, dependencies := dep,
           build_instructions := bi, environment_variables := ev,
           post_build_commands := pb, metadata := md }
  | _ => none

/-! Text extraction with encoding detection (ingestion.py). Byte strings
are lists of byte values. chardet.detect is abstracted to the encoding
field of its result dict, an optional string; bytes.decode is abstracted
to an optional result, none meaning UnicodeDecodeError; the final
errors-replace decode is total. -/

/-- The fallback encodings tried in order by
_extract_text_with_encoding_detection. -/
def fallbackEncodings : List String := ["utf-8", "latin-1", "cp1252", "iso-8859-1"]

/-- The fallback loop: first encoding that decodes wins. -/
def tryFallbacks (decode : String → List Nat → Option String) (raw : List Nat) :
    List String → Option String
  | [] => none
  | e :: rest =>
    match decode e raw with
    | some c => some c
    | none => tryFallbacks decode raw rest

/-- Embeds ingestion.py _extract_text_with_encoding_detection. The
detected encoding is encoding_result.get with default utf-8; chardet
always populates the encoding key, so the value None reaches
raw_data.decode unchanged and raises TypeError there, which the handler
for UnicodeDecodeError does not catch and the outer handler re-raises
(Except.error). With a string encoding, the detected try, the fallback
loop and the errors-replace last resort all return normally. -/
def extractTextWithEncodingDetection
    (detect : List Nat → Option String)
    (decode : String → List Nat → Option String)
    (decodeReplace : List Nat → String)
    (raw : List Nat) : Except String String :=
  match detect raw with
  | none => Except.error "TypeError: decode() argument encoding must be str, not None"
  | some enc =>
    match decode enc raw with
    | some c => Except.ok c
    | none =>
      match tryFallbacks decode raw fallbackEncodings with
      | some c => Except.ok c
      | none => Except.ok (decodeReplace raw)

/-! Architectural synthesis fallback (asm.py). The extracted data passed
between _ai_enhance_plan and _create_basic_plan. -/

/-- The extracted_data dict built in synthesize_architecture and passed to
_ai_enhance_plan, with the keys _create_basic_plan receives. -/
structure ExtractedData where
  project_info : List (String × String)
  tech_stack : List String
  dependencies : List String
  file_structure : List (String × JValue)
  build_steps : List String

/-- Python dict get with a default string. -/
def lookupD (kvs : List (String × String)) (k d : String) : String :=
  (List.lookup k kvs).getD d

/-- Embeds asm.py _create_basic_plan: the rule-based plan dict. -/
def createBasicPlan (d : ExtractedData) : JValue :=
  JValue.jobj [
    ("project_name", JValue.jstr (lookupD d.project_info "name" "generated-project")),
    ("description", JValue.jstr (lookupD d.project_info "description" "Generated application")),
    ("technology_stack", JValue.jarr (d.tech_stack.map JValue.jstr)),
    ("directory_structure", JValue.jobj d.file_structure),
    ("dependencies", JValue.jarr (d.dependencies.map JValue.jstr)),
    ("environment_variables", JValue.jobj []),
    ("post_build_commands", JValue.jarr []),
    ("build_sequence", JValue.jarr (d.build_steps.map JValue.jstr))]

/-- Embeds asm.py _ai_enhance_plan on the path where the client exists:
response models the chat completions call (error is a raised exception,
ok carries the message content) and parse models json.loads on free-form
text. A parse failure or a raised call falls back to the rule-based
plan. -/
def aiEnhancePlan (parse : String → Option JValue)
    (response : Except Unit String) (d : ExtractedData) : JValue :=
  match response with
  | Except.error _ => createBasicPlan d
  | Except.ok content =>
    match parse content with
    | some plan => plan
    | none => createBasicPlan d

/-! Execution engine (builder.py CodeGenerationEngine). Filesystem and
subprocess behaviour is abstracted into a system interface over an
abstract world type; every executed primitive is also recorded in an
effect trace, so that absence of writes and of subprocess spawns is
visible in the statement. -/

/-- Outcome of one subprocess.run call: normal exit with a code and
captured streams, the TimeoutExpired exception, or another exception. -/
inductive RunOutcome where
  | exit : Int → String → String → RunOutcome
  | timeout : RunOutcome
  | exc : RunOutcome

/-- One performed external effect. pathCheck is a read; the others write
to the filesystem or spawn a subprocess. -/
inductive Effect where
  | mkdirP : String → Effect
  | writeFile : String → String → Effect
  | runShell : String → String → Nat → Effect
  | pathCheck : String → Effect
deriving DecidableEq

/-- True for effects that write to the filesystem or spawn a process. -/
def Effect.isWrite : Effect → Bool
  | Effect.pathCheck _ => false
  | _ => true

/-- Abstract system interface: world-passing semantics of the primitives
the engine calls. Option none on the writers models a raised OSError. -/
structure Sys (W : Type) where
  mkdirP : String → W → Option W
  writeFile : String → String → W → Option W
  pathExists : String → W → Bool
  runShell : String → String → Nat → W → RunOutcome × W

/-- Path join working_directory / p. -/
def joinPath (wd p : String) : String := wd ++ "/" ++ p

/-- Parent directory of a path (Path.parent). -/
def parentOf (s : String) : String :=
  String.intercalate "/" (s.splitOn "/").dropLast

/-- Embeds builder.py _run_command: dry run short-circuits; otherwise one
subprocess.run with the 300 second timeout, success only on return code
zero, timeout and any exception giving failure. -/
def runCommand {W : Type} (sys : Sys W) (dryRun : Bool) (wd cmd : String) (w : W) :
    Bool × W × List Effect :=
  if dryRun then (true, w, [])
  else
    match sys.runShell wd cmd 300 w with
    | (RunOutcome.exit code _ _, wNext) => (code == 0, wNext, [Effect.runShell wd cmd 300])
    | (RunOutcome.timeout, wNext) => (false, wNext, [Effect.runShell wd cmd 300])
    | (RunOutcome.exc, wNext) => (false, wNext, [Effect.runShell wd cmd 300])

/-- Embeds builder.py _create_directory. -/
def createDirectory {W : Type} (sys : Sys W) (dryRun : Bool) (wd dirPath : String) (w : W) :
    Bool × W × List Effect :=
  if dryRun then (true, w, [])
  else
    match sys.mkdirP (joinPath wd dirPath) w with
    | some wNext => (true, wNext, [Effect.mkdirP (joinPath wd dirPath)])
    | none => (false, w, [Effect.mkdirP (joinPath wd dirPath)])

/-- Embeds builder.py _create_file: dry run short-circuits; otherwise the
parent directory is created, then the content written; an exception at
either step gives failure. -/
def createFile {W : Type} (sys : Sys W) (dryRun : Bool) (wd filePath content : String) (w : W) :
    Bool × W × List Effect :=
  if dryRun then (true, w, [])
  else
    let full := joinPath wd filePath
    match sys.mkdirP (parentOf full) w with
    | none => (false, w, [Effect.mkdirP (parentOf full)])
    | some w1 =>
      match sys.writeFile full content w1 with
      | some w2 => (true, w2, [Effect.mkdirP (parentOf full), Effect.writeFile full content])
      | none => (false, w1, [Effect.mkdirP (parentOf full), Effect.writeFile full content])

/-- Embeds builder.py _install_npm_dependency. -/
def installNpmDependency {W : Type} (sys : Sys W) (dryRun : Bool) (wd dep : String) (w : W) :
    Bool × W × List Effect :=
  if dryRun then (true, w, [])
  else runCommand sys false wd ("npm install " ++ dep) w

/-- Embeds builder.py _install_pip_dependency. -/
def installPipDependency {W : Type} (sys : Sys W) (dryRun : Bool) (wd dep : String) (w : W) :
    Bool × W × List Effect :=
  if dryRun then (true, w, [])
  else runCommand sys false wd ("pip install " ++ dep) w

/-- Embeds builder.py _install_dependency: the package manager detection
reads (which short-circuit like the Python or) happen before any dry run
check; unknown package manager is a success without effects. -/
def installDependency {W : Type} (sys : Sys W) (dryRun : Bool) (wd dep : String) (w : W) :
    Bool × W × List Effect :=
  let p1 := joinPath wd "package.json"
  if sys.pathExists p1 w then
    let (b, wNext, t) := installNpmDependency sys dryRun wd dep w
    (b, wNext, Effect.pathCheck p1 :: t)
  else
    let p2 := joinPath wd "requirements.txt"
    if sys.pathExists p2 w then
      let (b, wNext, t) := installPipDependency sys dryRun wd dep w
      (b, wNext, Effect.pathCheck p1 :: Effect.pathCheck p2 :: t)
    else
      let p3 := joinPath wd "pyproject.toml"
      if sys.pathExists p3 w then
        let (b, wNext, t) := installPipDependency sys dryRun wd dep w
        (b, wNext, Effect.pathCheck p1 :: Effect.pathCheck p2 :: Effect.pathCheck p3 :: t)
      else
        (true, w, [Effect.pathCheck p1, Effect.pathCheck p2, Effect.pathCheck p3])

/-- Embeds builder.py _execute_instruction: dispatch on the type field;
an unknown type only logs a warning and succeeds. -/
def executeInstruction {W : Type} (sys : Sys W) (dryRun : Bool) (wd : String)
    (i : BuildInstruction) (w : W) : Bool × W × List Effect :=
  if i.type = "directory" then createDirectory sys dryRun wd i.target w
  else if i.type = "file" then createFile sys dryRun wd i.target (i.content.getD "") w
  else if i.type = "dependency" then installDependency sys dryRun wd i.target w
  else if i.type = "command" then runCommand sys dryRun wd i.target w
  else (true, w, [])

/-- The instruction loop of builder.py _execute_plan: run in order, stop
at the first failure. -/
def execInstrList {W : Type} (sys : Sys W) (dryRun : Bool) (wd : String) :
    List BuildInstruction → W → Bool × W × List Effect
  | [], w => (true, w, [])
  | i :: rest, w =>
    let (ok, w1, t1) := executeInstruction sys dryRun wd i w
    if ok then
      let (ok2, w2, t2) := execInstrList sys dryRun wd rest w1
      (ok2, w2, t1 ++ t2)
    else (false, w1, t1)

/-- The post-build loop of builder.py _execute_plan: every command runs,
a failure only logs a warning. -/
def runPostBuild {W : Type} (sys : Sys W) (dryRun : Bool) (wd : String) :
    List String → W → W × List Effect
  | [], w => (w, [])
  | c :: cs, w =>
    let (_, w1, t1) := runCommand sys dryRun wd c w
    let (w2, t2) := runPostBuild sys dryRun wd cs w1
    (w2, t1 ++ t2)

/-- Embeds builder.py _execute_plan: sort the instructions by order, run
them halting at the first failure; on success run the post-build commands
best-effort and report success. -/
def executePlan {W : Type} (sys : Sys W) (dryRun : Bool) (wd : String)
    (plan : UnifiedBuildPlan) (w : W) : Bool × W × List Effect :=
  let sorted := sortInstrs plan.build_instructions
  let (ok, w1, t1) := execInstrList sys dryRun wd sorted w
  if ok then
    let (w2, t2) := runPostBuild sys dryRun wd plan.post_build_commands w1
    (true, w2, t1 ++ t2)
  else (false, w1, t1)

/-! Overlap splitter (enhanced_ingestion.py _split_with_overlap). -/

/-- Python str.split with no argument: split on runs of whitespace and
drop empty pieces. Defined structurally on the character list so that it
evaluates in the kernel. -/
def splitWordsAux : List Char → List Char → List String
  | [], acc => if acc.isEmpty then [] else [String.mk acc.reverse]
  | c :: cs, acc =>
    if c.isWhitespace then
      (if acc.isEmpty then [] else [String.mk acc.reverse]) ++ splitWordsAux cs []
    else splitWordsAux cs (c :: acc)

/-- The words of a content string, as content.split() yields them. -/
def pyWords (s : String) : List String := splitWordsAux s.data []

/-- Python str join with a single space separator. -/
def joinSpace (ws : List String) : String := String.intercalate " " ws

/-- The while loop of _split_with_overlap on the word list, with explicit
fuel: each step takes the window words[start:end], stops when the end of
the list is reached, and otherwise continues from end - overlap_words.
Exhausted fuel (none) models a non-terminating loop; fuel above the
remaining word count is never exhausted when overlap is smaller than the
window (proved below). -/
def splitLoopFuel (maxWords overlapWords : Nat) (ws : List String) :
    Nat → Nat → Option (List (List String))
  | 0, _ => none
  | fuel + 1, start =>
    if start < ws.length then
      let e := min (start + maxWords) ws.length
      let chunk := (ws.drop start).take (e - start)
      if ws.length ≤ e then some [chunk]
      else
        match splitLoopFuel maxWords overlapWords ws fuel (e - overlapWords) with
        | some rest => some (chunk :: rest)
        | none => none
    else some []

/-- Embeds enhanced_ingestion.py _split_with_overlap: empty word list
returns the content alone; otherwise the word windows of int(0.75 *
max_chunk_size) words with int(0.75 * overlap_size) overlap are joined
with single spaces. For the integer sizes involved, int(n * 0.75) equals
3 * n / 4 in natural division, the float product being exact. -/
def splitWithOverlap (maxChunkSize overlapSize : Nat) (content : String) :
    Option (List String) :=
  let ws := pyWords content
  if ws.isEmpty then some [content]
  else
    let maxWords := 3 * maxChunkSize / 4
    let overlapWords := 3 * overlapSize / 4
    (splitLoopFuel maxWords overlapWords ws (ws.length + 1) 0).map
      (fun cs => cs.map joinSpace)

/-- The word-level chunks underlying splitWithOverlap (empty when the
loop would not terminate): each returned chunk is the joinSpace image of
one of these word windows. -/
def splitWithOverlapWords (maxChunkSize overlapSize : Nat) (content : String) :
    List (List String) :=
  (splitLoopFuel (3 * maxChunkSize / 4) (3 * overlapSize / 4) (pyWords content)
    ((pyWords content).length + 1) 0).getD []

/-! Concrete sample data for evaluating the embedding at specific
inputs. -/

/-- A trivial system over the unit world: nothing exists, writes succeed,
every subprocess hits the 300 second timeout. -/
def unitSys : Sys Unit where
  mkdirP := fun _ _ => some ()
  writeFile := fun _ _ _ => some ()
  pathExists := fun _ _ => false
  runShell := fun _ _ _ _ => (RunOutcome.timeout, ())

/-- A json.loads model for a response that is not parseable JSON. -/
def noParse : String → Option JValue := fun _ => none

/-- Sample extracted data for a document set. -/
def sampleExtracted : ExtractedData where
  project_info := [("name", "demo-app")]
  tech_stack := ["react"]
  dependencies := ["next"]
  file_structure := [("src", JValue.jobj [])]
  build_steps := ["npm run build"]

/-- The chardet detect model: the encoding field is None exactly when the
input is empty (chardet reports no encoding for empty byte strings). -/
def detectNoneOnEmpty : List Nat → Option String :=
  fun raw => if raw.isEmpty then none else some "utf-8"

/-- A stub bytes.decode model. -/
def decodeStub : String → List Nat → Option String := fun _ _ => some ""

/-- A stub errors-replace decode model. -/
def replaceStub : List Nat → String := fun _ => ""

/-- An instruction with a type the dispatcher does not know. -/
def unknownInstr : BuildInstruction where
  type := "announce"
  action := "run"
  target := "echo done"
  content := none
  dependencies := none
  order := 0

/-- A command instruction whose subprocess will time out under unitSys. -/
def timeoutCmdInstr : BuildInstruction where
  type := "command"
  action := "run"
  target := "npm run build"
  content := none
  dependencies := none
  order := 0

/-- A plan holding the single timing-out command instruction. -/
def timeoutPlan : UnifiedBuildPlan where
  project_name := "demo"
  description := "demo plan"
  technology_stack := []
  directory_structure := JValue.jobj []
  dependencies := []
  build_instructions := [timeoutCmdInstr]
  environment_variables := []
  post_build_commands := ["echo done"]
  metadata := JValue.jobj []

/-- The directory structure of the C2 scenario: src is a dict holding the
leaf app marked directory, package.json a leaf marked file. -/
def c2Structure : List (String × JValue) :=
  [("src", JValue.jobj [("app", JValue.jstr "directory")]),
   ("package.json", JValue.jstr "file")]

/-- The plan dict of the C2 scenario. -/
def c2Plan : PlanDict where
  directory_structure := c2Structure
  dependencies := []
  build_sequence := ["npm install"]

/-! Theorems. -/

/-- C3: the claim says best-effort text extraction never raises for any
byte sequence. Refuted on the code: chardet.detect reports encoding None
for the empty byte string, encoding_result.get with default utf-8 still
yields None because the key is present, and raw_data.decode(None) raises
TypeError, which the UnicodeDecodeError handler does not catch and the
outer handler re-raises. This theorem evaluates the embedded function at
the failing input. -/
theorem c3_extraction_raises_on_undetected_encoding :
    extractTextWithEncodingDetection detectNoneOnEmpty decodeStub replaceStub [] =
      Except.error "TypeError: decode() argument encoding must be str, not None" := rfl

/-- C5: if the generation provider returns a response json.loads cannot
parse, _ai_enhance_plan returns exactly the plan dict of the rule-based
path on the same extracted data, and never errors. -/
theorem c5_malformed_response_falls_back (parse : String → Option JValue)
    (content : String) (d : ExtractedData) (h : parse content = none) :
    aiEnhancePlan parse (Except.ok content) d = createBasicPlan d := by
  simp [aiEnhancePlan, h]

/-- Witness for C5 at a concrete non-JSON response. -/
theorem c5_malformed_response_falls_back_witness :
    noParse "this is not json" = none ∧
    aiEnhancePlan noParse (Except.ok "this is not json") sampleExtracted =
      createBasicPlan sampleExtracted :=
  ⟨rfl, c5_malformed_response_falls_back noParse "this is not json" sampleExtracted rfl⟩

/-- C10: an instruction whose type is none of directory, file, dependency,
command executes as a success with no side effect: the dispatcher only
logs a warning and returns True. -/
theorem c10_unknown_type_succeeds {W : Type} (sys : Sys W) (dryRun : Bool)
    (wd : String) (i : BuildInstruction) (w : W)
    (h1 : i.type ≠ "directory") (h2 : i.type ≠ "file")
    (h3 : i.type ≠ "dependency") (h4 : i.type ≠ "command") :
    executeInstruction sys dryRun wd i w = (true, w, []) := by
  simp [executeInstruction, h1, h2, h3, h4]

/-- Witness for C10 at a concrete unknown instruction type. -/
theorem c10_unknown_type_succeeds_witness :
    (unknownInstr.type ≠ "directory" ∧ unknownInstr.type ≠ "file" ∧
     unknownInstr.type ≠ "dependency" ∧ unknownInstr.type ≠ "command") ∧
    executeInstruction unitSys false "work" unknownInstr () = (true, (), []) :=
  ⟨⟨by decide, by decide, by decide, by decide⟩,
   c10_unknown_type_succeeds unitSys false "work" unknownInstr ()
     (by decide) (by decide) (by decide) (by decide)⟩

/-- C7: with dry_run set, executing an instruction of any type returns
success, leaves the world unchanged, and its effect trace contains no
filesystem write and no subprocess spawn (only existence reads). -/
theorem c7_dry_run_no_side_effects {W : Type} (sys : Sys W) (wd : String)
    (i : BuildInstruction) (w : W) :
    (executeInstruction sys true wd i w).1 = true ∧
    (executeInstruction sys true wd i w).2.1 = w ∧
    (executeInstruction sys true wd i w).2.2.all (fun e => ! e.isWrite) = true := by
  simp only [executeInstruction]
  split_ifs
  · simp [createDirectory]
  · simp [createFile]
  · simp only [installDependency, installNpmDependency, installPipDependency]
    split_ifs <;> simp [Effect.isWrite]
  · simp [runCommand]
  · simp

/-- C2: the claim says the scenario structure compiles to one directory
instruction for src and one for src/app. Refuted on the code: the code
walks only dict-valued entries and drops the string leaf marker of
src/app, so the only directory instruction target is src. This theorem
evaluates the compiler at the scenario input. -/
theorem c2_src_app_directory_instruction_missing :
    ((createBuildInstructions c2Plan).filter (fun b => b.type == "directory")).map
        (fun b => b.target) = ["src"] := by
  have h : extractDirectories c2Plan.directory_structure "" = ["src"] := by
    simp [c2Plan, c2Structure, extractDirectories]
  rw [createBuildInstructions, h]
  rfl

/-- Generic round-trip for the traversal: if the decoder inverts the
encoder elementwise, it inverts it on encoded lists. -/
theorem mapMOpt_encode {A B : Type} (f : B → Option A) (g : A → B)
    (h : ∀ x, f (g x) = some x) (l : List A) :
    mapMOpt f (l.map g) = some l := by
  induction l with
  | nil => rfl
  | cons a t ih => simp [mapMOpt, h, ih]

/-- A list of encoded strings decodes to the original list. -/
theorem mapM_decodeStr_encode (l : List String) :
    mapMOpt decodeStr (l.map JValue.jstr) = some l :=
  mapMOpt_encode decodeStr JValue.jstr (fun _ => rfl) l

/-- An encoded string array decodes to the original list. -/
theorem decodeStrList_encode (l : List String) :
    decodeStrList (JValue.jarr (l.map JValue.jstr)) = some l := by
  simp [decodeStrList, mapM_decodeStr_encode]

/-- Encoded environment variable pairs decode to the original pairs. -/
theorem decodeStrPairs_encode (l : List (String × String)) :
    decodeStrPairs (JValue.jobj (l.map (fun kv => (kv.1, JValue.jstr kv.2)))) = some l := by
  have h : ∀ m : List (String × String),
      mapMOpt (fun kv => (decodeStr kv.2).map (fun s => (kv.1, s)))
        (m.map (fun kv => (kv.1, JValue.jstr kv.2))) = some m :=
    mapMOpt_encode _ _ (fun _ => rfl)
  simp [decodeStrPairs, h]

/-- One encoded instruction decodes to the original instruction. -/
theorem decodeInstruction_encode (b : BuildInstruction) :
    decodeInstruction (encodeInstruction b) = some b := by
  cases b with
  | mk ty ac tg ct dp od =>
    cases ct <;> cases dp <;>
      simp [encodeInstruction, decodeInstruction, jGet, List.lookup,
            decodeStr, decodeOptStr, decodeOptStrList, decodeInt,
            mapM_decodeStr_encode]

/-- A list of encoded instructions decodes to the original list. -/
theorem mapM_decodeInstruction_encode (l : List BuildInstruction) :
    mapMOpt decodeInstruction (l.map encodeInstruction) = some l :=
  mapMOpt_encode decodeInstruction encodeInstruction decodeInstruction_encode l

/-- C4: round-trip: loading the JSON document written by _save_build_plan
through the reconstruction of _load_build_plan yields a plan equal to the
original in every field, nested instructions and array order included,
and the directory_structure tree passed through unchanged. -/
theorem c4_build_plan_roundtrip (p : UnifiedBuildPlan) :
    decodePlan (encodePlan p) = some p := by
  cases p with
  | mk pn ds ts dstruct dep bi ev pb md =>
    simp [encodePlan, decodePlan, jGet, List.lookup, decodeStr,
          decodeStrList_encode, mapM_decodeInstruction_encode,
          decodeStrPairs_encode]

/-- Unfolding of the three-phase compiler into its emission blocks. -/
theorem createBuildInstructions_eq (p : PlanDict) :
    createBuildInstructions p =
      (emitInstructions "directory" "create" (extractDirectories p.directory_structure "") 0).1 ++
      (emitInstructions "dependency" "install" p.dependencies
        (emitInstructions "directory" "create" (extractDirectories p.directory_structure "") 0).2).1 ++
      (emitInstructions "command" "run" p.build_sequence
        (emitInstructions "dependency" "install" p.dependencies
          (emitInstructions "directory" "create" (extractDirectories p.directory_structure "") 0).2).2).1 :=
  rfl

/-- The emitted instruction count equals the target count. -/
theorem emitInstructions_length (ty ac : String) (xs : List String) (o : Nat) :
    (emitInstructions ty ac xs o).1.length = xs.length := by
  induction xs generalizing o with
  | nil => rfl
  | cons t rest ih => simp [emitInstructions, ih]

/-- The counter after an emission block advanced by the target count. -/
theorem emitInstructions_snd (ty ac : String) (xs : List String) (o : Nat) :
    (emitInstructions ty ac xs o).2 = o + xs.length := by
  induction xs generalizing o with
  | nil => rfl
  | cons t rest ih =>
    simp only [emitInstructions, List.length_cons, ih]
    omega

/-- The emitted orders are the consecutive naturals from the counter. -/
theorem emitInstructions_map_order (ty ac : String) (xs : List String) (o : Nat) :
    (emitInstructions ty ac xs o).1.map (fun b => b.order) =
      (List.range' o xs.length).map Int.ofNat := by
  induction xs generalizing o with
  | nil => rfl
  | cons t rest ih => simp [emitInstructions, List.range'_succ, ih]

/-- Every instruction of an emission block carries the block type. -/
theorem emitInstructions_type (ty ac : String) (xs : List String) (o : Nat) :
    ∀ b ∈ (emitInstructions ty ac xs o).1, b.type = ty := by
  induction xs generalizing o with
  | nil => simp [emitInstructions]
  | cons t rest ih =>
    intro b hb
    simp only [emitInstructions, List.mem_cons] at hb
    rcases hb with h | h
    · rw [h]
    · exact ih (o + 1) b h

/-- A block of instructions of one common type is internally ordered by
phase rank. -/
theorem pairwise_typeRank_const {l : List BuildInstruction} {ty : String}
    (h : ∀ b ∈ l, b.type = ty) :
    l.Pairwise (fun a b => typeRank a.type ≤ typeRank b.type) := by
  induction l with
  | nil => exact List.Pairwise.nil
  | cons a t ih =>
    refine List.Pairwise.cons ?_ (ih ?_)
    · intro b hb
      rw [h a (List.mem_cons_self a t), h b (List.mem_cons_of_mem a hb)]
    · intro b hb
      exact h b (List.mem_cons_of_mem a hb)

/-- A range splits into three consecutive blocks. -/
theorem range_triple (a b c : Nat) :
    List.range (a + b + c) = List.range' 0 a ++ List.range' a b ++ List.range' (a + b) c := by
  have h1 := List.range'_append 0 a b 1
  have h2 := List.range'_append 0 (b + a) c 1
  simp only [Nat.one_mul, Nat.zero_add] at h1 h2
  rw [List.range_eq_range', (by omega : a + b + c = c + (b + a)), ← h2, ← h1,
      Nat.add_comm b a]

/-- C1: the compiler assigns the orders 0, 1, 2, ... in emission order
across the three phases; the instruction list is already sorted by order
(so the stable sort of the builder leaves it unchanged); and in the
sorted output any instruction of strictly smaller phase rank (directory
before dependency before command) sits strictly earlier, for every input
analysis. -/
theorem c1_orders_increasing_and_phase_separated (p : PlanDict) :
    ((createBuildInstructions p).map (fun b => b.order) =
      (List.range (createBuildInstructions p).length).map Int.ofNat) ∧
    sortInstrs (createBuildInstructions p) = createBuildInstructions p ∧
    (∀ i j : Fin (createBuildInstructions p).length,
      typeRank ((createBuildInstructions p).get i).type <
        typeRank ((createBuildInstructions p).get j).type → (i : Nat) < (j : Nat)) := by
  have hEq := createBuildInstructions_eq p
  have hsnd1 : (emitInstructions "directory" "create"
      (extractDirectories p.directory_structure "") 0).2 =
      (extractDirectories p.directory_structure "").length := by
    rw [emitInstructions_snd]
    omega
  have hsnd2 : (emitInstructions "dependency" "install" p.dependencies
      (emitInstructions "directory" "create"
        (extractDirectories p.directory_structure "") 0).2).2 =
      (extractDirectories p.directory_structure "").length + p.dependencies.length := by
    rw [emitInstructions_snd, hsnd1]
  have hlen : (createBuildInstructions p).length =
      (extractDirectories p.directory_structure "").length +
        p.dependencies.length + p.build_sequence.length := by
    rw [hEq]
    simp [emitInstructions_length]
    omega
  have hmap : (createBuildInstructions p).map (fun b => b.order) =
      (List.range (createBuildInstructions p).length).map Int.ofNat := by
    rw [hlen, range_triple, hEq, List.map_append, List.map_append,
        emitInstructions_map_order, emitInstructions_map_order, emitInstructions_map_order,
        hsnd2, hsnd1, List.map_append, List.map_append]
  refine ⟨hmap, ?_, ?_⟩
  · have hint : List.Pairwise (· < ·)
        ((List.range (createBuildInstructions p).length).map Int.ofNat) :=
      List.pairwise_map.mpr
        ((List.pairwise_lt_range _).imp (fun h => Int.ofNat_lt.mpr h))
    rw [← hmap] at hint
    have hpw := List.pairwise_map.mp hint
    exact List.Sorted.insertionSort_eq (hpw.imp (fun h => le_of_lt h))
  · have hrank : (createBuildInstructions p).Pairwise
        (fun a b => typeRank a.type ≤ typeRank b.type) := by
      rw [hEq]
      refine List.pairwise_append.mpr ⟨List.pairwise_append.mpr
        ⟨pairwise_typeRank_const (emitInstructions_type _ _ _ _),
         pairwise_typeRank_const (emitInstructions_type _ _ _ _), ?_⟩,
        pairwise_typeRank_const (emitInstructions_type _ _ _ _), ?_⟩
      · intro a ha b hb
        rw [emitInstructions_type _ _ _ _ a ha, emitInstructions_type _ _ _ _ b hb]
        decide
      · intro a ha b hb
        rw [List.mem_append] at ha
        rw [emitInstructions_type _ _ _ _ b hb]
        rcases ha with h | h
        · rw [emitInstructions_type _ _ _ _ a h]
          decide
        · rw [emitInstructions_type _ _ _ _ a h]
          decide
    intro i j hlt
    rcases Nat.lt_trichotomy (i : Nat) (j : Nat) with h | h | h
    · exact h
    · exfalso
      have hij : i = j := Fin.ext h
      rw [hij] at hlt
      exact lt_irrefl _ hlt
    · exfalso
      have hle := (List.pairwise_iff_get.mp hrank) j i h
      exact absurd hlt (not_lt.mpr hle)

/-- Running the instruction loop on a prefix that succeeds, then a
failing instruction, gives failure with exactly the prefix trace plus the
failing trace: nothing after the failure runs, whatever follows. -/
theorem execInstrList_halts {W : Type} (sys : Sys W) (wd : String)
    (pre : List BuildInstruction) (i : BuildInstruction) (post : List BuildInstruction) :
    ∀ (w w1 w2 : W) (t1 t2 : List Effect),
    execInstrList sys false wd pre w = (true, w1, t1) →
    executeInstruction sys false wd i w1 = (false, w2, t2) →
    execInstrList sys false wd (pre ++ i :: post) w = (false, w2, t1 ++ t2) := by
  induction pre with
  | nil =>
    intro w w1 w2 t1 t2 hpre hfail
    simp only [execInstrList, Prod.mk.injEq, true_and] at hpre
    obtain ⟨hw, ht⟩ := hpre
    subst hw
    subst ht
    simp [execInstrList, hfail]
  | cons a pre ih =>
    intro w w1 w2 t1 t2 hpre hfail
    rcases hA : executeInstruction sys false wd a w with ⟨ok, wa, ta⟩
    simp only [execInstrList, hA] at hpre
    cases ok with
    | false => simp at hpre
    | true =>
      simp only [if_true] at hpre
      rcases hB : execInstrList sys false wd pre wa with ⟨ok2, wb, tb⟩
      rw [hB] at hpre
      simp only [Prod.mk.injEq] at hpre
      obtain ⟨hok2, hwb, ht1⟩ := hpre
      subst hok2
      subst hwb
      have hrec := ih wa wb w2 tb t2 hB hfail
      simp [List.cons_append, execInstrList, hA, hrec, ← ht1]

/-- C6: with dry_run off, a failing instruction (a subprocess timeout in
particular counts as failure) makes plan execution return False with no
instruction after the failing sort position executed, while a failing
post-build command leaves the overall result True. -/
theorem c6_failure_halts_postbuild_best_effort :
    (∀ (W : Type) (sys : Sys W) (wd : String) (plan : UnifiedBuildPlan)
        (w w1 w2 : W) (t1 t2 : List Effect)
        (pre post : List BuildInstruction) (i : BuildInstruction),
      sortInstrs plan.build_instructions = pre ++ i :: post →
      execInstrList sys false wd pre w = (true, w1, t1) →
      executeInstruction sys false wd i w1 = (false, w2, t2) →
      executePlan sys false wd plan w = (false, w2, t1 ++ t2)) ∧
    (∀ (W : Type) (sys : Sys W) (wd cmd : String) (w wNext : W),
      sys.runShell wd cmd 300 w = (RunOutcome.timeout, wNext) →
      runCommand sys false wd cmd w = (false, wNext, [Effect.runShell wd cmd 300])) ∧
    (∀ (W : Type) (sys : Sys W) (wd : String) (plan : UnifiedBuildPlan)
        (w w1 : W) (t1 : List Effect),
      execInstrList sys false wd (sortInstrs plan.build_instructions) w = (true, w1, t1) →
      (executePlan sys false wd plan w).1 = true) := by
  refine ⟨?_, ?_, ?_⟩
  · intro W sys wd plan w w1 w2 t1 t2 pre post i hsort hpre hfail
    have hhalt := execInstrList_halts sys wd pre i post w w1 w2 t1 t2 hpre hfail
    simp [executePlan, hsort, hhalt]
  · intro W sys wd cmd w wNext h
    simp [runCommand, h]
  · intro W sys wd plan w w1 t1 h
    simp [executePlan, h]

/-- Witness for C6: a single command instruction whose subprocess times
out halts the concrete plan with failure and only its own trace. -/
theorem c6_failure_halts_postbuild_best_effort_witness :
    sortInstrs timeoutPlan.build_instructions = [] ++ timeoutCmdInstr :: [] ∧
    executePlan unitSys false "work" timeoutPlan () =
      (false, (), [] ++ [Effect.runShell "work" "npm run build" 300]) :=
  ⟨rfl, c6_failure_halts_postbuild_best_effort.1 Unit unitSys "work" timeoutPlan
    () () () [] [Effect.runShell "work" "npm run build" 300] [] []
    timeoutCmdInstr rfl rfl rfl⟩

/-- Core invariant of the overlap splitter loop: when the overlap window
is smaller than the chunk window and the fuel exceeds the remaining word
count, the loop returns a non-empty chunk list whose first chunk has the
full window size (capped by the remainder) and which, after dropping the
leading overlap words of every later chunk, concatenates back to exactly
the remaining words. -/
theorem splitLoopFuel_spec (maxW oW : Nat) (ws : List String) (hlt : oW < maxW) :
    ∀ fuel start, ws.length - start < fuel → start < ws.length →
    ∃ r, splitLoopFuel maxW oW ws fuel start = some r ∧ r ≠ [] ∧
      r.headI.length = min maxW (ws.length - start) ∧
      r.headI ++ ((r.tail.map (List.drop oW)).flatten) = ws.drop start := by
  intro fuel
  induction fuel with
  | zero =>
    intro start h1 h2
    omega
  | succ fuel ih =>
    intro start h1 h2
    by_cases hend : ws.length ≤ min (start + maxW) ws.length
    · have he : min (start + maxW) ws.length = ws.length := by omega
      have hfit : (ws.drop start).length ≤ min (start + maxW) ws.length - start := by
        rw [he]
        simp [List.length_drop]
      refine ⟨[(ws.drop start).take (min (start + maxW) ws.length - start)],
        ?_, ?_, ?_, ?_⟩
      · simp [splitLoopFuel, h2, hend]
      · simp
      · simp only [List.headI_cons]
        rw [List.take_of_length_le hfit]
        simp only [List.length_drop]
        omega
      · simp only [List.headI_cons, List.tail_cons, List.map_nil, List.flatten_nil,
          List.append_nil]
        exact List.take_of_length_le hfit
    · have he : min (start + maxW) ws.length = start + maxW := by omega
      have hlt2 : start + maxW < ws.length := by omega
      obtain ⟨rest, hr, hne, hlen2, hjoin⟩ :=
        ih (start + maxW - oW) (by omega) (by omega)
      refine ⟨(ws.drop start).take maxW :: rest, ?_, ?_, ?_, ?_⟩
      · simp only [splitLoopFuel, if_pos h2, he]
        rw [if_neg (by omega : ¬ ws.length ≤ start + maxW), hr]
        have harith : start + maxW - start = maxW := by omega
        simp [harith]
      · simp
      · simp only [List.headI_cons, List.length_take, List.length_drop]
      · rcases rest with _ | ⟨rh, rt⟩
        · exact absurd rfl hne
        · simp only [List.headI_cons, List.tail_cons] at hjoin hlen2 ⊢
          have hoW : oW ≤ rh.length := by
            rw [hlen2]
            rw [Nat.le_min]
            omega
          simp only [List.map_cons, List.flatten_cons]
          rw [← List.drop_append_of_le_length hoW, hjoin, List.drop_drop]
          have harith2 : start + maxW - oW + oW = start + maxW := by omega
          rw [harith2]
          have hsplit : List.drop (start + maxW) ws = List.drop maxW (List.drop start ws) := by
            rw [List.drop_drop]
          rw [hsplit, List.take_append_drop]

/-- C9: when the derived overlap window is strictly smaller than the
derived chunk window (satisfied by the defaults 200 and 4000), the
splitter loop terminates, returning a non-empty chunk list for every
input string; the loop start index grows by window minus overlap each
iteration, which drives the termination argument. -/
theorem c9_split_terminates_nonempty (maxCS oS : Nat) (content : String)
    (h : 3 * oS / 4 < 3 * maxCS / 4) :
    splitWithOverlap maxCS oS content ≠ none ∧
    (splitWithOverlap maxCS oS content).getD [] ≠ [] := by
  by_cases hw : (pyWords content).isEmpty
  · constructor
    · simp [splitWithOverlap, hw]
    · simp [splitWithOverlap, hw]
  · have hne : pyWords content ≠ [] := by simpa [List.isEmpty_iff] using hw
    have hpos : 0 < (pyWords content).length := List.length_pos_of_ne_nil hne
    obtain ⟨r, hr, hrne, _, _⟩ :=
      splitLoopFuel_spec (3 * maxCS / 4) (3 * oS / 4) (pyWords content) h
        ((pyWords content).length + 1) 0 (by omega) hpos
    constructor
    · simp [splitWithOverlap, hw, hr]
    · simp [splitWithOverlap, hw, hr, hrne]

/-- Witness for C9 at the default configuration sizes. -/
theorem c9_split_terminates_nonempty_witness :
    (3 * 200 / 4 < 3 * 4000 / 4) ∧
    (splitWithOverlap 4000 200 "alpha beta" ≠ none ∧
     (splitWithOverlap 4000 200 "alpha beta").getD [] ≠ []) :=
  ⟨by decide, c9_split_terminates_nonempty 4000 200 "alpha beta" (by decide)⟩

/-- C8: under the same window precondition, on any content with at least
one word the splitter produces word-window chunks whose joinSpace images
are the returned strings, and dropping the leading overlap words of every
chunk after the first and concatenating recovers exactly the word
sequence of the original content: no words are dropped between adjacent
sub-chunks. -/
theorem c8_no_content_dropped (maxCS oS : Nat) (content : String)
    (h : 3 * oS / 4 < 3 * maxCS / 4) (hw : pyWords content ≠ []) :
    splitLoopFuel (3 * maxCS / 4) (3 * oS / 4) (pyWords content)
      ((pyWords content).length + 1) 0 ≠ none ∧
    splitWithOverlap maxCS oS content =
      some ((splitWithOverlapWords maxCS oS content).map joinSpace) ∧
    splitWithOverlapWords maxCS oS content ≠ [] ∧
    (splitWithOverlapWords maxCS oS content).headI ++
      (((splitWithOverlapWords maxCS oS content).tail.map
        (List.drop (3 * oS / 4))).flatten) = pyWords content := by
  have hpos : 0 < (pyWords content).length := List.length_pos_of_ne_nil hw
  have hw2 : (pyWords content).isEmpty = false := by
    simp [List.isEmpty_iff, hw]
  obtain ⟨r, hr, hrne, _, hjoin⟩ :=
    splitLoopFuel_spec (3 * maxCS / 4) (3 * oS / 4) (pyWords content) h
      ((pyWords content).length + 1) 0 (by omega) hpos
  rw [List.drop_zero] at hjoin
  refine ⟨by simp [hr], ?_, ?_, ?_⟩
  · simp [splitWithOverlap, splitWithOverlapWords, hw2, hr]
  · simp [splitWithOverlapWords, hr, hrne]
  · simp only [splitWithOverlapWords, hr, Option.getD_some]
    exact hjoin

/-- Witness for C8 at the default configuration sizes. -/
theorem c8_no_content_dropped_witness :
    (3 * 200 / 4 < 3 * 4000 / 4) ∧ pyWords "alpha beta" ≠ [] ∧
    (splitLoopFuel (3 * 4000 / 4) (3 * 200 / 4) (pyWords "alpha beta")
       ((pyWords "alpha beta").length + 1) 0 ≠ none ∧
     splitWithOverlap 4000 200 "alpha beta" =
       some ((splitWithOverlapWords 4000 200 "alpha beta").map joinSpace) ∧
     splitWithOverlapWords 4000 200 "alpha beta" ≠ [] ∧
     (splitWithOverlapWords 4000 200 "alpha beta").headI ++
       (((splitWithOverlapWords 4000 200 "alpha beta").tail.map
         (List.drop (3 * 200 / 4))).flatten) = pyWords "alpha beta") :=
  ⟨by decide, by decide,
   c8_no_content_dropped 4000 200 "alpha beta" (by decide) (by decide)⟩

end MCP
